import Mathlib

/-!
Verification of the Markdown ⇄ Word converter (`word_converter.py`).

The Python string operations are embedded as functions over `String`
(manipulated through their character lists).  Stateful code (filesystem,
network, clock) is embedded as explicit state passing: the filesystem is an
association list from paths to byte lists, the network is a function from a
URL to an optional byte list, timestamps are drawn from an explicit list of
timestamp strings, and the URL hash (`sha256`-prefix in the source) is an
abstract function parameter.
-/

namespace WordFile

/-! ## Python-style string primitives -/

/-- Python `str.strip()`: remove leading and trailing whitespace. -/
def pstrip (s : String) : String :=
  ⟨((s.data.dropWhile Char.isWhitespace).reverse.dropWhile Char.isWhitespace).reverse⟩

/-- Python `str.startswith(p)`. -/
def sstarts (s p : String) : Bool := p.data.isPrefixOf s.data

/-- Python slicing `s[n:]` (by code points). -/
def sdrop (s : String) (n : Nat) : String := ⟨s.data.drop n⟩

/-- Python `str.split(sep)` for a one-character separator, on char lists. -/
def psplitCh (sep : Char) : List Char → List (List Char)
  | [] => [[]]
  | c :: rest =>
    if c = sep then [] :: psplitCh sep rest
    else
      match psplitCh sep rest with
      | [] => [[c]]
      | w :: ws => (c :: w) :: ws

/-- Python `line.split('|')`. -/
def splitPipe (s : String) : List String := (psplitCh '|' s.data).map (fun l => ⟨l⟩)

/-- Python slicing `xs[1:-1]`. -/
def innerParts {α : Type} (l : List α) : List α := (l.drop 1).dropLast

/-- Cells of a markdown table row: `[c.strip() for c in row.split('|')[1:-1]]`. -/
def rowCells (s : String) : List String := (innerParts (splitPipe s)).map pstrip

/-- Python `'|' in line[1:]`. -/
def hasPipeTail (s : String) : Bool := (s.data.drop 1).any (fun c => c = '|')

/-- Python `os.path.basename` (posix). -/
def pbasename (s : String) : String := ⟨(s.data.reverse.takeWhile (fun c => c != '/')).reverse⟩

/-- Python `os.path.join(a, b)` (posix, two components). -/
def pjoin (a b : String) : String :=
  if sstarts b "/" then b
  else if a = "" then b
  else if a.data.getLast? = some '/' then a ++ b
  else a ++ "/" ++ b

/-- Python `os.path.isabs` (posix). -/
def pisabs (s : String) : Bool := sstarts s "/"

/-- The extension part of `os.path.splitext` applied to a single path
component (leading dots of the component do not start an extension). -/
def splitextExt (name : String) : String :=
  let l := name.data
  let lead := l.takeWhile (fun c => c = '.')
  let rest := l.drop lead.length
  if rest.any (fun c => c = '.') then
    ⟨'.' :: (rest.reverse.takeWhile (fun c => c != '.')).reverse⟩
  else ""

/-- The extension part of `os.path.splitext` on a full path: only the last
path component is considered. -/
def splitextPathExt (p : String) : String := splitextExt (pbasename p)

/-- Python `str.lower()`. -/
def lowerStr (s : String) : String := ⟨s.data.map Char.toLower⟩

/-- Python `text.split()`: maximal runs of non-whitespace characters. -/
def pyWords (l : List Char) : List (List Char) :=
  (l.splitOnP Char.isWhitespace).filter (fun w => w ≠ [])

/-! ## Filesystem / network state model -/

/-- A filesystem: newest write first; `lookup` finds the current content. -/
abbrev FS : Type := List (String × List Nat)

def fsWrite (fs : FS) (p : String) (b : List Nat) : FS := (p, b) :: fs

def fsRead (fs : FS) (p : String) : List Nat := ((fs : List _).lookup p).getD []

def fsIsFile (fs : FS) (p : String) : Bool := ((fs : List _).lookup p).isSome

/-! ## Markdown block parser (`markdown_to_word`, lines 51–97) -/

/-- Tail of the image-line regex `^!\[(.*?)\]\(([^\)\s]+)(?:\s+"(.*?)")?\)$`
after the closing `](`: a nonempty run of non-`)` non-whitespace characters,
then either a final `)`, or whitespace, a `"`-quoted title and a final `)`. -/
def imgTail (rest : List Char) : Option (String × Option String) :=
  let path := rest.takeWhile (fun c => c != ')' && !c.isWhitespace)
  if path.isEmpty then none
  else
    let r := rest.drop path.length
    match r with
    | [')'] => some (⟨path⟩, none)
    | _ =>
      let ws := r.takeWhile Char.isWhitespace
      if ws.isEmpty then none
      else
        match r.drop ws.length with
        | '"' :: r2 =>
          if r2.length ≥ 2 ∧ r2.drop (r2.length - 2) = ['"', ')'] then
            some (⟨path⟩, some ⟨r2.take (r2.length - 2)⟩)
          else none
        | _ => none

/-- Backtracking search for the lazy alt group of the image-line regex: the
alt text extends to the first `](` whose tail parses. -/
def imgAlt (seen : List Char) : List Char → Option (String × String × Option String)
  | [] => none
  | c :: rest =>
    if c = ']' then
      match rest with
      | '(' :: rest2 =>
        match imgTail rest2 with
        | some pt => some (⟨seen.reverse⟩, pt.1, pt.2)
        | none => imgAlt (c :: seen) rest
      | _ => imgAlt (c :: seen) rest
    else imgAlt (c :: seen) rest

/-- `re.match(r'^!\[(.*?)\]\(([^\)\s]+)(?:\s+"(.*?)")?\)$', line)`. -/
def imageLineMatch (line : String) : Option (String × String × Option String) :=
  match line.data with
  | '!' :: '[' :: rest => imgAlt [] rest
  | _ => none

/-- `_is_table_header`. -/
def is_table_header (line : String) : Bool := sstarts line "|" && hasPipeTail line

/-- One separator cell, `re.match(r'^:?-{3,}:?$', p)`. -/
def sepPartOk (p : String) : Bool :=
  let l := p.data
  let l1 := if l.head? = some ':' then l.tail else l
  let l2 := if l1.getLast? = some ':' then l1.dropLast else l1
  decide (l2.length ≥ 3) && l2.all (fun c => c = '-')

/-- `_is_table_separator`. -/
def is_table_separator (line : String) : Bool :=
  if !(sstarts line "|" && hasPipeTail line) then false
  else
    let parts := (innerParts (splitPipe line)).map pstrip
    !parts.isEmpty && parts.all sepPartOk

/-- Data-row collection loop of `_add_table_block` (lines 201–210): consume
`|`-rows while the cell count matches the header's; return the consumed rows
and the unconsumed remainder of the line list. -/
def collect_table_rows (ncols : Nat) : List String → (List (List String) × List String)
  | [] => ([], [])
  | l :: rest =>
    let row := pstrip l
    if !(sstarts row "|") || !(hasPipeTail row) then ([], l :: rest)
    else
      let cells := rowCells row
      if cells.length = ncols then
        let res := collect_table_rows ncols rest
        (cells :: res.1, res.2)
      else ([], l :: rest)

theorem collect_table_rows_len (ncols : Nat) (ls : List String) :
    (collect_table_rows ncols ls).2.length ≤ ls.length := by
  induction ls with
  | nil => simp [collect_table_rows]
  | cons l rest ih =>
    simp only [collect_table_rows]
    split
    · simp
    · split
      · simpa using Nat.le_succ_of_le ih
      · simp

/-- Inner `while` of the code-fence branch (lines 91–94): emit each raw line
as a plain paragraph until a line whose strip starts with ```` ``` ````. -/
def fence_lines : List String → (List String × List String)
  | [] => ([], [])
  | l :: rest =>
    if sstarts (pstrip l) "```" then ([], l :: rest)
    else
      let res := fence_lines rest
      (l :: res.1, res.2)

theorem fence_lines_len (ls : List String) :
    (fence_lines ls).2.length ≤ ls.length := by
  induction ls with
  | nil => simp [fence_lines]
  | cons l rest ih =>
    simp only [fence_lines]
    split
    · simp
    · simpa using Nat.le_succ_of_le ih

/-- One parsed block, i.e. one builder action of the line loop of
`markdown_to_word`. -/
inductive Block : Type where
  | blank : Block
  | image : String → String → Option String → Block
  | table : List String → List (List String) → Block
  | heading : Nat → String → Block
  | listItem : Bool → String → Block
  | quote : String → Block
  | para : String → Block
deriving DecidableEq

theorem collect_table_rows_lt (n : Nat) (l : String) (rest : List String) :
    (collect_table_rows n rest.tail).2.length < (l :: rest).length := by
  have h1 := collect_table_rows_len n rest.tail
  have h2 : rest.tail.length ≤ rest.length := by cases rest <;> simp
  simp only [List.length_cons]
  omega

theorem fence_lines_lt (l : String) (rest : List String) :
    (fence_lines rest).2.tail.length < (l :: rest).length := by
  have h1 := fence_lines_len rest
  have h2 : (fence_lines rest).2.tail.length ≤ (fence_lines rest).2.length := by
    cases (fence_lines rest).2 <;> simp
  simp only [List.length_cons]
  omega

/-- `re.match(r'^\d+\. ', line)`: length of the ordered-list marker. -/
def ordPrefixLen (s : String) : Option Nat :=
  let d := s.data.takeWhile Char.isDigit
  if d.isEmpty then none
  else if (s.data.drop d.length).take 2 = ['.', ' '] then some (d.length + 2)
  else none

/-- The line loop of `markdown_to_word` (lines 53–97), as a block parser over
the (suffix of the) list of lines.  The loop only ever reads the current line
and lines after it, so consuming from the front of the list is equivalent to
the source's index-based loop. -/
def markdown_to_word_blocks : List String → List Block
  | [] => []
  | l :: rest =>
    let line := pstrip l
    if line = "" then Block.blank :: markdown_to_word_blocks rest
    else
      match imageLineMatch line with
      | some apt => Block.image apt.1 apt.2.1 apt.2.2 :: markdown_to_word_blocks rest
      | none =>
        if is_table_header line &&
            (match rest.head? with
             | some r1 => is_table_separator (pstrip r1)
             | none => false) then
          let headers := rowCells line
          let res := collect_table_rows headers.length rest.tail
          Block.table headers res.1 :: markdown_to_word_blocks res.2
        else if sstarts line "# " then
          Block.heading 1 (sdrop line 2) :: markdown_to_word_blocks rest
        else if sstarts line "## " then
          Block.heading 2 (sdrop line 3) :: markdown_to_word_blocks rest
        else if sstarts line "### " then
          Block.heading 3 (sdrop line 4) :: markdown_to_word_blocks rest
        else if sstarts line "#### " then
          Block.heading 4 (sdrop line 5) :: markdown_to_word_blocks rest
        else if sstarts line "- " || sstarts line "* " then
          Block.listItem false (sdrop line 2) :: markdown_to_word_blocks rest
        else if (ordPrefixLen line).isSome then
          Block.listItem true (sdrop line ((ordPrefixLen line).getD 0)) ::
            markdown_to_word_blocks rest
        else if sstarts line "> " then
          Block.quote (sdrop line 2) :: markdown_to_word_blocks rest
        else if sstarts line "```" then
          let res := fence_lines rest
          res.1.map Block.para ++ markdown_to_word_blocks res.2.tail
        else
          Block.para line :: markdown_to_word_blocks rest
termination_by ls => ls.length
decreasing_by
  all_goals first
    | (simp only [List.length_cons]; omega)
    | exact collect_table_rows_lt _ _ _
    | exact fence_lines_lt _ _

/-! ## Asset resolver (`_download_image_to_media`, lines 344–363) -/

/-- The extension chosen for a URL:
`ext = os.path.splitext(url.split('?')[0].split('#')[0])[1]`, defaulting to
`.png` when absent or longer than 5 characters. -/
def urlExt (url : String) : String :=
  let base : List Char := (url.data.takeWhile (fun c => c != '?')).takeWhile (fun c => c != '#')
  let e := splitextPathExt ⟨base⟩
  if e = "" || e.length > 5 then ".png" else e

/-- `_download_image_to_media`.  `hash` abstracts
`hashlib.sha256(url).hexdigest()[:16]`; `net` abstracts `requests.get` (`none`
is any fetch error, including a bad status).  The final `Nat` counts the
network fetches performed by this call (0 or 1). -/
def download_image_to_media (outputDir : String) (hash : String → String)
    (net : String → Option (List Nat)) (url : String) (fs : FS) :
    FS × Option String × Nat :=
  let name := hash url ++ urlExt url
  let path := pjoin (pjoin outputDir "media") name
  if fsIsFile fs path then (fs, some path, 0)
  else
    match net url with
    | some bytes => (fsWrite fs path bytes, some path, 1)
    | none => (fs, none, 1)

/-! ## `_preprocess_markdown_assets` (lines 322–342) -/

/-- One match of the non-anchored pattern
`!\[(?P<alt>[^\]]*)\]\((?P<url>https?://[^\)\s]+)(?:\s+"(?P<title>.*?)")?\)`
starting at the head of the character list: the groups, the matched
characters, and the remaining characters after the match. -/
structure LinkMatch where
  alt : String
  url : String
  title : Option String
  matched : List Char
  remaining : List Char
deriving DecidableEq

/-- The `https?://` scheme part of the URL group. -/
def urlSchemeSplit (u : List Char) : Option (List Char × List Char) :=
  if "https://".data.isPrefixOf u then some ("https://".data, u.drop 8)
  else if "http://".data.isPrefixOf u then some ("http://".data, u.drop 7)
  else none

/-- The lazy title group `"(.*?)"` followed by `\)`: the title extends to the
first `")`;  `.` does not match a newline, so a newline aborts the match. -/
def findTitleEnd : List Char → Option (List Char × List Char)
  | [] => none
  | c :: r =>
    if c = '"' && r.head? == some ')' then some ([], r.tail)
    else if c = '\n' then none
    else
      match findTitleEnd r with
      | some tr => some (c :: tr.1, tr.2)
      | none => none

/-- Match the remote-image-link pattern at the head of `l`. -/
def matchImageLink (l : List Char) : Option LinkMatch :=
  match l with
  | '!' :: '[' :: t =>
    let alt := t.takeWhile (fun c => c != ']')
    match t.dropWhile (fun c => c != ']') with
    | ']' :: '(' :: u =>
      match urlSchemeSplit u with
      | none => none
      | some su =>
        let run := su.2.takeWhile (fun c => c != ')' && !c.isWhitespace)
        if run.isEmpty then none
        else
          let url := su.1 ++ run
          match su.2.dropWhile (fun c => c != ')' && !c.isWhitespace) with
          | ')' :: rest =>
            some ⟨⟨alt⟩, ⟨url⟩, none,
              '!' :: '[' :: (alt ++ ']' :: '(' :: (url ++ [')'])), rest⟩
          | r =>
            let ws := r.takeWhile Char.isWhitespace
            if ws.isEmpty then none
            else
              match r.dropWhile Char.isWhitespace with
              | '"' :: r2 =>
                match findTitleEnd r2 with
                | some tr =>
                  some ⟨⟨alt⟩, ⟨url⟩, some ⟨tr.1⟩,
                    '!' :: '[' ::
                      (alt ++ ']' :: '(' :: (url ++ ws ++ '"' :: (tr.1 ++ ['"', ')']))),
                    tr.2⟩
                | none => none
              | _ => none
    | _ => none
  | _ => none

/-- `os.path.relpath(p, start)` restricted to paths lying under `start`
(the only shape produced by the download helper: `<start>/media/<name>`). -/
def relpathFrom (start p : String) : String :=
  if (start ++ "/").data.isPrefixOf p.data then ⟨p.data.drop (start.length + 1)⟩ else p

/-- The `re.sub` scanning loop of `_preprocess_markdown_assets`: try the
pattern at every position, left to right; a failed download keeps the matched
text (`m.group(0)`), a successful one rewrites the link to the relative local
path (alt defaulting to `image` when empty, the title kept only when truthy).
`fuel` only bounds the recursion; `fuel = length of the input` suffices. -/
def preprocess_go (outputDir : String) (hash : String → String)
    (net : String → Option (List Nat)) : Nat → List Char → FS → FS × List Char
  | 0, l, fs => (fs, l)
  | _ + 1, [], fs => (fs, [])
  | fuel + 1, c :: cs, fs =>
    match matchImageLink (c :: cs) with
    | some m =>
      let d := download_image_to_media outputDir hash net m.url fs
      match d.2.1 with
      | none =>
        let res := preprocess_go outputDir hash net fuel m.remaining d.1
        (res.1, m.matched ++ res.2)
      | some lp =>
        let rel := relpathFrom outputDir lp
        let altR := if m.alt = "" then "image" else m.alt
        let rep : String :=
          match m.title with
          | some ti =>
            if ti ≠ "" then "![" ++ altR ++ "](" ++ rel ++ " \"" ++ ti ++ "\")"
            else "![" ++ altR ++ "](" ++ rel ++ ")"
          | none => "![" ++ altR ++ "](" ++ rel ++ ")"
        let res := preprocess_go outputDir hash net fuel m.remaining d.1
        (res.1, rep.data ++ res.2)
    | none =>
      let res := preprocess_go outputDir hash net fuel cs fs
      (res.1, c :: res.2)

/-- `_preprocess_markdown_assets`. -/
def preprocess_markdown_assets (outputDir : String) (hash : String → String)
    (net : String → Option (List Nat)) (content : String) (fs : FS) : FS × String :=
  let res := preprocess_go outputDir hash net content.data.length content.data fs
  (res.1, ⟨res.2⟩)

/-! ## Table cells and the builder's table construction -/

/-- `tcPr` metadata of a table cell: `gridSpan.val` and the `vMerge` element
with its optional `val` attribute. -/
structure TcPr where
  gridSpan : Option Int
  vMerge : Option (Option String)
deriving DecidableEq

/-- A `w:tc` table-cell element of the rich document: plain text plus merge
metadata. -/
structure TCell where
  text : String
  tcPr : Option TcPr
deriving DecidableEq

/-- `python-docx` `CT_Tc.grid_span`: the `gridSpan` value, 1 when absent
(`range` of a non-positive span appends nothing). -/
def tcGridSpan (c : TCell) : Nat :=
  match c.tcPr with
  | none => 1
  | some pr =>
    match pr.gridSpan with
    | none => 1
    | some v => v.toNat

/-- `python-docx` `tc.vMerge == ST_Merge.CONTINUE`: a `vMerge` element whose
`val` attribute is absent (default `continue`) or equal to `continue`. -/
def tcVMergeContinue (c : TCell) : Bool :=
  match c.tcPr with
  | none => false
  | some pr =>
    match pr.vMerge with
    | none => false
    | some val =>
      match val with
      | none => true
      | some s => s = "continue"

/-- One `tc` of the `python-docx` `Table._cells` loop: append `grid_span`
entries to the (reversed) cell list — the cell one grid row above
(`cells[-col_count]`) for a vertical continuation, the previous entry
(`cells[-1]`) for the later columns of a horizontal span, and the cell itself
otherwise.  `none` models the `IndexError` a malformed table raises
(`cells[-col_count]` reaching before the start), which the caller's `except`
turns into an empty extraction. -/
def expandTcGo (colCount : Nat) (tc : TCell) :
    Nat → Nat → List TCell → Option (List TCell)
  | 0, _, acc => some acc
  | n + 1, idx, acc =>
    if tcVMergeContinue tc then
      match (if colCount = 0 then acc.getLast? else acc.get? (colCount - 1)) with
      | none => none
      | some above => expandTcGo colCount tc n (idx + 1) (above :: acc)
    else if 0 < idx then
      match acc.head? with
      | none => none
      | some last => expandTcGo colCount tc n (idx + 1) (last :: acc)
    else expandTcGo colCount tc n (idx + 1) (tc :: acc)

/-- `python-docx` `Table._cells` over the flattened `tc` elements,
accumulating the layout-grid cell list in reverse. -/
def tblCellsGo (colCount : Nat) : List TCell → List TCell → Option (List TCell)
  | acc, [] => some acc
  | acc, tc :: tcs =>
    match expandTcGo colCount tc (tcGridSpan tc) 0 acc with
    | none => none
    | some acc2 => tblCellsGo colCount acc2 tcs

/-- A table of the rich document: the `w:tblGrid` column count and the `tc`
elements of each `w:tr` row. -/
structure Tbl where
  colCount : Nat
  trs : List (List TCell)
deriving DecidableEq

/-- `python-docx` `Table._cells`: one cell per layout-grid position, with
`gridSpan`-merged cells repeated once per spanned column and `vMerge`
continuations replaced by the cell above. -/
def tblCellsList (t : Tbl) : Option (List TCell) :=
  match tblCellsGo t.colCount [] t.trs.flatten with
  | none => none
  | some acc => some acc.reverse

/-- `python-docx` `Table.row_cells(i)`: the `i`-th `col_count`-wide slice of
`Table._cells` (Python slices clamp, so no error here). -/
def rowChunks (colCount nrows : Nat) (cells : List TCell) : List (List TCell) :=
  (List.range nrows).map (fun i => (cells.drop (i * colCount)).take colCount)

/-- The `row.cells` lists seen when iterating `table.rows`, or `none` when
computing `Table._cells` raises. -/
def tblRowCells (t : Tbl) : Option (List (List TCell)) :=
  match tblCellsList t with
  | none => none
  | some cells => some (rowChunks t.colCount t.trs.length cells)

/-- One row of the table the builder creates: `docx` cells start with empty
text, and `table.cell(r, c).text = cells[c]` fills positions `c <
len(cells)`. -/
def fillRow (cols : Nat) (cells : List String) : List TCell :=
  (List.range cols).map (fun c => ⟨cells.getD c "", none⟩)

/-- The table construction of `_add_table_block` (lines 211–222): a
`(1 + len(data_rows)) × max(1, len(headers))` grid (so `colCount` grid
columns) filled from the header and data cells, no cell merged. -/
def add_table_block_grid (headers : List String) (dataRows : List (List String)) :
    Tbl :=
  let cols := max 1 headers.length
  ⟨cols, fillRow cols headers :: dataRows.map (fillRow cols)⟩

/-! ## `_add_image` (lines 225–320) -/

/-- The constructs `_add_image` can append to the document. -/
inductive DocElem : Type where
  | pic : String → DocElem
  | caption : String → DocElem
  | placeholderPara : Nat → Nat → Nat → String → DocElem
deriving DecidableEq

/-- The local-path candidate search of `_add_image` (lines 245–299),
including the copy performed when the image is found in the nested
`media/media` location. -/
def resolve_local_image (outputDir : String) (fs : FS) (ip : String) :
    FS × Option String :=
  if fsIsFile fs ip then (fs, some ip)
  else if fsIsFile fs (pjoin outputDir ip) then (fs, some (pjoin outputDir ip))
  else if pisabs ip then (fs, none)
  else
    let mediaDir := pjoin outputDir "media"
    let firstTry : Option String :=
      if sstarts ip "media/" then
        if fsIsFile fs (pjoin outputDir ip) then some (pjoin outputDir ip)
        else if fsIsFile fs (pjoin mediaDir (pbasename ip)) then
          some (pjoin mediaDir (pbasename ip))
        else none
      else
        if fsIsFile fs (pjoin mediaDir (pbasename ip)) then
          some (pjoin mediaDir (pbasename ip))
        else none
    match firstTry with
    | some a => (fs, some a)
    | none =>
      let np := pjoin mediaDir ip
      if fsIsFile fs np then
        let correct := pjoin mediaDir (pbasename ip)
        if correct ≠ np then (fsWrite fs correct (fsRead fs np), some correct)
        else (fs, some np)
      else (fs, none)

/-- The gray placeholder paragraph (`RGBColor(128, 128, 128)`) shown when an
image cannot be resolved. -/
def grayPlaceholder (altText : String) : DocElem :=
  DocElem.placeholderPara 128 128 128
    ("[图片: " ++ (if altText = "" then "未命名图片" else altText) ++ "]")

/-- `_add_image` after any remote download: resolve locally, then either a
picture plus an optional centered caption, or the gray placeholder. -/
def add_image_local (outputDir : String) (fs : FS) (ip altText : String) :
    FS × List DocElem :=
  let r := resolve_local_image outputDir fs ip
  match r.2 with
  | none => (r.1, [grayPlaceholder altText])
  | some a => (r.1, DocElem.pic a :: (if altText ≠ "" then [DocElem.caption altText] else []))

/-- `_add_image`. -/
def add_image (outputDir : String) (hash : String → String)
    (net : String → Option (List Nat)) (fs : FS) (imagePath altText : String) :
    FS × List DocElem :=
  if sstarts imagePath "http://" || sstarts imagePath "https://" then
    let d := download_image_to_media outputDir hash net imagePath fs
    match d.2.1 with
    | none => (d.1, [grayPlaceholder altText])
    | some lp => add_image_local outputDir d.1 lp altText
  else add_image_local outputDir fs imagePath altText

/-! ## Rich-document model for extraction -/

/-- An image part of the document package: the basename of its part name and
its bytes (`image_part.blob`). -/
structure ImagePart where
  baseName : String
  blob : List Nat
deriving DecidableEq

/-- A text run, reduced to the `a:blip` elements it contains; each entry is
the value of the blip's `r:embed` attribute (`none` when absent). -/
structure PRun where
  blips : List (Option String)
deriving DecidableEq

/-- Paragraph numbering metadata: `pPr.numPr.ilvl.val` and
`pPr.numPr.numId.val` (the outer `Option` is the `numId` element itself). -/
structure NumPr where
  ilvlVal : Option Int
  numIdVal : Option (Option Int)
deriving DecidableEq

/-- A paragraph of the rich document. -/
structure Par where
  styleName : String
  text : String
  numPr : Option NumPr
  runs : List PRun
  relatedParts : List (String × ImagePart)
deriving DecidableEq

/-- A body element: a paragraph or a table, in document order. -/
inductive BodyElem : Type where
  | par : Par → BodyElem
  | tbl : Tbl → BodyElem
deriving DecidableEq

/-- Python `pat in s` on character lists. -/
def listContains (pat : List Char) : List Char → Bool
  | [] => pat.isEmpty
  | c :: rest => pat.isPrefixOf (c :: rest) || listContains pat rest

/-! ## `_extract_images_from_paragraph` (lines 732–760) -/

/-- The run scan of `_extract_images_from_paragraph`: the first run with an
`a:blip` whose truthy `r:embed` id resolves in `related_parts` wins. -/
def imgScan (parts : List (String × ImagePart)) : List PRun → Option ImagePart
  | [] => none
  | r :: rs =>
    match r.blips.head? with
    | none => imgScan parts rs
    | some none => imgScan parts rs
    | some (some rid) =>
      if rid = "" then imgScan parts rs
      else
        match parts.lookup rid with
        | none => imgScan parts rs
        | some part => some part

/-- `_extract_images_from_paragraph`: save the first embedded image under a
timestamp-derived name directly in the output directory and return its
Markdown reference; `clock` supplies the successive `datetime.now()`
timestamp strings. -/
def extract_images_from_paragraph (outputDir : String) (p : Par) (fs : FS)
    (clock : List String) : FS × List String × String :=
  match imgScan p.relatedParts p.runs with
  | none => (fs, clock, "")
  | some part =>
    let e := splitextExt part.baseName
    let ext := if e = "" then ".png" else e
    let imgName := "extracted_" ++ clock.headD "" ++ ext
    (fsWrite fs (pjoin outputDir imgName) part.blob, clock.tail,
      "![image](" ++ imgName ++ ")")

/-! ## `_paragraph_to_markdown_full` (lines 578–627) -/

/-- The heading-style scan `for level in range(1, 6)` over the lowered style
name. -/
def headingLevelOf (style : String) : Option Nat :=
  if listContains "heading 1".data style.data then some 1
  else if listContains "heading 2".data style.data then some 2
  else if listContains "heading 3".data style.data then some 3
  else if listContains "heading 4".data style.data then some 4
  else if listContains "heading 5".data style.data then some 5
  else none

/-- Python `str(x)` for the optional `numId.val`. -/
def pyStrOfOptInt : Option Int → String
  | none => "None"
  | some v => toString v

/-- The text-only part of `_paragraph_to_markdown_full` (what the function
returns when the paragraph holds no extractable image). -/
def par_text_markdown (p : Par) : String :=
  let text := p.text
  if pstrip text = "" then ""
  else
    let style := lowerStr p.styleName
    match headingLevelOf style with
    | some lvl => (⟨List.replicate lvl '#'⟩ : String) ++ " " ++ text
    | none =>
      match p.numPr with
      | some np =>
        let level : Int := np.ilvlVal.getD 0
        let isOrdered : Bool :=
          match np.numIdVal with
          | none => false
          | some v => pyStrOfOptInt v != "1"
        let indent : String := ⟨List.replicate (2 * (max 0 level).toNat) ' '⟩
        let mark := if isOrdered then "1. " else "- "
        indent ++ mark ++ text
      | none =>
        if listContains "quote".data (lowerStr p.styleName).data then "> " ++ text
        else text

/-- `_paragraph_to_markdown_full`: an extracted image takes priority over any
text content. -/
def paragraph_to_markdown_full (outputDir : String) (p : Par) (fs : FS)
    (clock : List String) : FS × List String × String :=
  let r := extract_images_from_paragraph outputDir p fs clock
  if r.2.2 ≠ "" then r
  else (r.1, r.2.1, par_text_markdown p)

/-! ## Table extraction (`_table_to_markdown_full`, `_clean_cell_text`,
`_cell_text_with_merge_hint`) -/

/-- `_clean_cell_text`: collapse internal whitespace runs to single spaces
and trim. -/
def clean_cell_text (text : String) : String :=
  if text = "" then ""
  else pstrip ⟨List.intercalate [' '] (pyWords text.data)⟩

/-- One pipe-delimited Markdown table row: `"| " + " | ".join(cells) + " |"`. -/
def mdRow (cells : List String) : String :=
  "| " ++ String.intercalate " | " cells ++ " |"

/-- `_table_to_markdown_full` (lines 638–666): row 0 of `table.rows` is the
header, followed by a `---` separator row, then the data rows, all with
cleaned cell text and no merge hints.  The rows are read through `row.cells`
(`tblRowCells`), so a horizontally merged cell appears once per spanned grid
column and a vertical continuation repeats the cell above; if computing the
cell grid raises, the `except` returns `""`. -/
def table_to_markdown_full (t : Tbl) : String :=
  match tblRowCells t with
  | none => ""
  | some rows =>
    match rows with
    | [] => ""
    | r0 :: rest =>
      let hcells := r0.map (fun c => clean_cell_text c.text)
      String.intercalate "\n"
        (mdRow hcells ::
         mdRow (List.replicate hcells.length "---") ::
         rest.map (fun r => mdRow (r.map (fun c => clean_cell_text c.text))))

/-- `_cell_text_with_merge_hint` (lines 709–730): stripped cell text plus a
bracketed `colspan`/`rowspan` hint when the cell metadata indicates a merge.
(Reachable only from the unused `_table_to_markdown` helper.) -/
def cell_text_with_merge_hint (c : TCell) : String :=
  let text := pstrip c.text
  let hints : List String :=
    match c.tcPr with
    | none => []
    | some pr =>
      (match pr.gridSpan with
       | some v => if v != 0 then ["colspan=" ++ toString v] else []
       | none => []) ++
      (match pr.vMerge with
       | none => []
       | some val =>
         match val with
         | none => ["rowspan=continue"]
         | some s =>
           if s = "continue" then ["rowspan=continue"]
           else if s = "restart" then ["rowspan=start"]
           else [])
  if !hints.isEmpty then text ++ " <" ++ String.intercalate " " hints ++ ">"
  else text

/-! ## `_extract_content_from_doc` (lines 462–497) -/

/-- `doc.paragraphs`: the top-level paragraphs, in document order. -/
def docParagraphs (d : List BodyElem) : List Par :=
  d.filterMap (fun e => match e with | .par p => some p | .tbl _ => none)

/-- `doc.tables`: the top-level tables, in document order. -/
def docTables (d : List BodyElem) : List Tbl :=
  d.filterMap (fun e => match e with | .tbl t => some t | .par _ => none)

/-- First loop of `_extract_content_from_doc`: paragraph fragments, keeping
only truthy, non-whitespace ones. -/
def extract_pars_pass (outputDir : String) :
    List Par → FS → List String → FS × List String × List String
  | [], fs, ck => (fs, ck, [])
  | p :: ps, fs, ck =>
    let r := paragraph_to_markdown_full outputDir p fs ck
    let rest := extract_pars_pass outputDir ps r.1 r.2.1
    (rest.1, rest.2.1,
      if r.2.2 != "" && pstrip r.2.2 != "" then r.2.2 :: rest.2.2 else rest.2.2)

/-- The run scan reached through `_extract_images_from_xml`'s proxy
paragraph: the first run with a blip carrying a truthy `r:embed` id — the
point at which the source dereferences `paragraph.part`. -/
def imgScanEmbed : List PRun → Option String
  | [] => none
  | r :: rs =>
    match r.blips.head? with
    | none => imgScanEmbed rs
    | some none => imgScanEmbed rs
    | some (some rid) => if rid = "" then imgScanEmbed rs else some rid

/-- `_extract_images_from_xml` (lines 683–690): wraps the body element in
`Paragraph(block, None)` and calls `_extract_images_from_paragraph`.  On this
parentless proxy, `paragraph.part` is `self._parent.part` with
`self._parent = None`, so as soon as the scan finds a run with an embedded
blip id the attribute access raises `AttributeError`; the exception is caught
by the surrounding `except` and `""` is returned — before any timestamp is
taken or any file written.  With no such run the loop simply ends with `""`.
Either way the result is the empty string. -/
def extract_images_from_xml (p : Par) : String :=
  match imgScanEmbed p.runs with
  | some _ => ""
  | none => ""

/-- Third loop of `_extract_content_from_doc`: a second walk over the body's
paragraph elements through `_extract_images_from_xml`.  It performs no
filesystem or clock effects (the proxy raises before either). -/
def extract_imgs_pass : List Par → List String
  | [] => []
  | p :: ps =>
    let md := extract_images_from_xml p
    let rest := extract_imgs_pass ps
    if md != "" && pstrip md != "" then md :: rest else rest

/-- `_extract_content_from_doc`: all paragraph fragments first, then all
table fragments, then whatever the extra body walk yields, joined by blank
lines. -/
def extract_content_from_doc (outputDir : String) (doc : List BodyElem) (fs : FS)
    (clock : List String) : FS × List String × String :=
  let r1 := extract_pars_pass outputDir (docParagraphs doc) fs clock
  let tblParts := ((docTables doc).map table_to_markdown_full).filter
    (fun s => s != "" && pstrip s != "")
  let imgParts := extract_imgs_pass (docParagraphs doc)
  (r1.1, r1.2.1, String.intercalate "\n\n" (r1.2.2 ++ tblParts ++ imgParts))

/-- Modelled from the spec (§4.4, claim C3's reading): a traversal that walks
body elements strictly in document order, paragraphs and tables interleaved
as they appear, one fragment per element, joined with blank lines.  Second
definition written from the spec's words, to be compared with
`extract_content_from_doc`. -/
def spec_in_order_pass (outputDir : String) :
    List BodyElem → FS → List String → FS × List String × List String
  | [], fs, ck => (fs, ck, [])
  | .par p :: es, fs, ck =>
    let r := paragraph_to_markdown_full outputDir p fs ck
    let rest := spec_in_order_pass outputDir es r.1 r.2.1
    (rest.1, rest.2.1,
      if r.2.2 != "" && pstrip r.2.2 != "" then r.2.2 :: rest.2.2 else rest.2.2)
  | .tbl t :: es, fs, ck =>
    let md := table_to_markdown_full t
    let rest := spec_in_order_pass outputDir es fs ck
    (rest.1, rest.2.1,
      if md != "" && pstrip md != "" then md :: rest.2.2 else rest.2.2)

/-- Modelled from the spec: the document-order extraction claim C3 ascribes
to `_extract_content_from_doc`. -/
def spec_in_order_extract (outputDir : String) (doc : List BodyElem) (fs : FS)
    (clock : List String) : FS × List String × String :=
  let r := spec_in_order_pass outputDir doc fs clock
  (r.1, r.2.1, String.intercalate "\n\n" r.2.2)

/-! ## General helper lemmas -/

theorem strEta (s : String) : (⟨s.data⟩ : String) = s := by
  cases s
  rfl

theorem str_ne_empty_of_data {s : String} {c : Char} {t : List Char}
    (h : s.data = c :: t) : s ≠ "" := by
  intro he
  rw [he] at h
  simp at h

theorem sstarts_data {s p : String} (h : sstarts s p = true) :
    ∃ t, s.data = p.data ++ t := by
  unfold sstarts at h
  rw [List.isPrefixOf_iff_prefix] at h
  obtain ⟨t, ht⟩ := h
  exact ⟨t, ht.symm⟩

theorem tcGridSpan_none {c : TCell} (h : c.tcPr = none) : tcGridSpan c = 1 := by
  unfold tcGridSpan
  rw [h]

theorem tcVMergeContinue_none {c : TCell} (h : c.tcPr = none) :
    tcVMergeContinue c = false := by
  unfold tcVMergeContinue
  rw [h]

/-- An unmerged `tc` contributes exactly itself to the layout-grid cell
list. -/
theorem expandTcGo_simple (colCount : Nat) {tc : TCell} (h : tc.tcPr = none)
    (acc : List TCell) :
    expandTcGo colCount tc (tcGridSpan tc) 0 acc = some (tc :: acc) := by
  rw [tcGridSpan_none h]
  simp [expandTcGo, tcVMergeContinue_none h]

theorem tblCellsGo_simple (colCount : Nat) (tcs : List TCell)
    (h : ∀ c ∈ tcs, c.tcPr = none) :
    ∀ acc, tblCellsGo colCount acc tcs = some (tcs.reverse ++ acc) := by
  induction tcs with
  | nil => intro acc; simp [tblCellsGo]
  | cons tc rest ih =>
    intro acc
    unfold tblCellsGo
    rw [expandTcGo_simple colCount (h tc (by simp)) acc]
    simp only [ih (fun q hq => h q (List.mem_cons_of_mem tc hq)) (tc :: acc)]
    simp

theorem rowChunks_flatten (c : Nat) (trs : List (List TCell))
    (h : ∀ r ∈ trs, r.length = c) :
    rowChunks c trs.length trs.flatten = trs := by
  induction trs with
  | nil => rfl
  | cons r rs ih =>
    unfold rowChunks
    rw [List.length_cons, List.range_succ_eq_map, List.map_cons, List.map_map]
    congr 1
    · rw [Nat.zero_mul, List.drop_zero, List.flatten_cons,
        List.take_left' (h r (by simp))]
    · have ih2 := ih (fun q hq => h q (List.mem_cons_of_mem r hq))
      unfold rowChunks at ih2
      refine Eq.trans (List.map_congr_left ?_) ih2
      intro i _
      simp only [Function.comp_def]
      rw [List.flatten_cons]
      have hmul : (i + 1) * c = c + i * c := by ring
      rw [hmul, ← List.drop_drop, List.drop_left' (h r (by simp))]

/-- `row.cells` of a merge-free, grid-aligned table is just its `tc` rows. -/
theorem tblRowCells_simple (t : Tbl) (h1 : ∀ r ∈ t.trs, r.length = t.colCount)
    (h2 : ∀ r ∈ t.trs, ∀ c ∈ r, c.tcPr = none) :
    tblRowCells t = some t.trs := by
  have hmem : ∀ c ∈ t.trs.flatten, c.tcPr = none := by
    intro c hc
    rw [List.mem_flatten] at hc
    obtain ⟨r, hr, hcr⟩ := hc
    exact h2 r hr c hcr
  unfold tblRowCells tblCellsList
  rw [tblCellsGo_simple t.colCount t.trs.flatten hmem []]
  simp only [List.append_nil, List.reverse_reverse]
  rw [rowChunks_flatten t.colCount t.trs h1]

theorem fillRow_length (n : Nat) (cells : List String) :
    (fillRow n cells).length = n := by
  simp [fillRow]

theorem fillRow_tcPr_none (n : Nat) (cells : List String) :
    ∀ c ∈ fillRow n cells, c.tcPr = none := by
  intro c hc
  obtain ⟨i, _, hEq⟩ := List.mem_map.mp hc
  rw [← hEq]

theorem fillRow_eq (cells : List String) :
    fillRow cells.length cells = cells.map (fun s => (⟨s, none⟩ : TCell)) := by
  induction cells with
  | nil => rfl
  | cons c cs ih =>
    unfold fillRow at ih ⊢
    rw [List.length_cons, List.range_succ_eq_map, List.map_cons, List.map_map,
      List.map_cons]
    simp only [List.getD_cons_zero, List.getD_cons_succ, Function.comp_def]
    exact congrArg _ ih

/-! ## C1: round-trip table fidelity without merges -/

/-- C1.  For a table of M ≥ 1 header cells and data rows all of M cells,
building the table (`_add_table_block`) and extracting it back
(`_table_to_markdown_full`) yields the pipe-delimited Markdown table whose
header and data cell texts are the whitespace-normalized
(`_clean_cell_text`) originals. -/
theorem table_roundtrip_no_merge (headers : List String) (rows : List (List String))
    (hM : 0 < headers.length) (hrows : ∀ r ∈ rows, r.length = headers.length) :
    table_to_markdown_full (add_table_block_grid headers rows) =
      String.intercalate "\n"
        (mdRow (headers.map clean_cell_text) ::
         mdRow (List.replicate headers.length "---") ::
         rows.map (fun r => mdRow (r.map clean_cell_text))) := by
  have hcols : max 1 headers.length = headers.length := Nat.max_eq_right hM
  have hrc : tblRowCells (add_table_block_grid headers rows) =
      some (fillRow headers.length headers ::
        rows.map (fillRow headers.length)) := by
    simp only [add_table_block_grid, hcols]
    apply tblRowCells_simple
    · intro r hr
      rcases List.mem_cons.mp hr with hEq | hMem
      · rw [hEq, fillRow_length]
      · obtain ⟨q, _, hEq⟩ := List.mem_map.mp hMem
        rw [← hEq, fillRow_length]
    · intro r hr
      rcases List.mem_cons.mp hr with hEq | hMem
      · rw [hEq]; exact fillRow_tcPr_none _ _
      · obtain ⟨q, _, hEq⟩ := List.mem_map.mp hMem
        rw [← hEq]; exact fillRow_tcPr_none _ _
  unfold table_to_markdown_full
  rw [hrc]
  simp only [fillRow_eq headers, List.map_map, Function.comp_def, List.length_map]
  congr 1
  refine congrArg _ (congrArg _ ?_)
  refine List.map_congr_left (fun r hr => congrArg mdRow ?_)
  rw [← hrows r hr, fillRow_eq r, List.map_map]
  rfl

/-- Witness for C1 at a concrete 2-column table with one data row. -/
theorem table_roundtrip_no_merge_witness :
    0 < (["A", "B"] : List String).length ∧
    table_to_markdown_full (add_table_block_grid ["A", "B"] [["1", "2"]]) =
      String.intercalate "\n"
        (mdRow ((["A", "B"] : List String).map clean_cell_text) ::
         mdRow (List.replicate (["A", "B"] : List String).length "---") ::
         ([["1", "2"]] : List (List String)).map (fun r => mdRow (r.map clean_cell_text))) :=
  ⟨by decide,
   table_roundtrip_no_merge ["A", "B"] [["1", "2"]] (by decide) (by decide)⟩

/-! ## C4: merge-hint emission -/

/-- C4 counterexample.  A 2-grid-column table whose header cell is
horizontally merged across both columns (`gridSpan = 2`), over a normal data
row: the extraction path used by `word_to_markdown`
(`_extract_content_from_doc` → `_table_to_markdown_full`) emits the merged
cell once per spanned grid column (`| X | X |`, the `row.cells` semantics)
and no merge hint at all — no `<` occurs in the output, so no cell text ends
in ` <colspan=2>`. -/
theorem merge_hint_counterexample :
    (extract_content_from_doc "out"
        [.tbl ⟨2, [[⟨"X", some ⟨some 2, none⟩⟩], [⟨"1", none⟩, ⟨"2", none⟩]]⟩]
        [] []).2.2 =
      "| X | X |\n| --- | --- |\n| 1 | 2 |" ∧
    ((extract_content_from_doc "out"
        [.tbl ⟨2, [[⟨"X", some ⟨some 2, none⟩⟩], [⟨"1", none⟩, ⟨"2", none⟩]]⟩]
        [] []).2.2).data.all
      (fun c => c != '<') = true := by
  constructor <;> decide

/-- C4 amended.  The helper `_cell_text_with_merge_hint` does append
` <colspan=2>` to a cell merged across two columns, but it is not part of the
extraction path used by `word_to_markdown`: `_table_to_markdown_full` emits
no hint — under `row.cells` semantics a cell spanning two grid columns is
emitted twice (its cleaned text duplicated, for any cell text), and a
`vMerge` continuation row repeats the cleaned text of the cell above while
its own text is discarded. -/
theorem merge_hint_amended :
    (∀ c : TCell, c.tcPr = some ⟨some 2, none⟩ →
      cell_text_with_merge_hint c = pstrip c.text ++ " <colspan=2>") ∧
    (∀ s : String,
      table_to_markdown_full ⟨2, [[⟨s, some ⟨some 2, none⟩⟩]]⟩ =
        String.intercalate "\n"
          [mdRow [clean_cell_text s, clean_cell_text s], mdRow ["---", "---"]]) ∧
    (∀ s t : String,
      table_to_markdown_full ⟨1, [[⟨s, none⟩], [⟨t, some ⟨none, some none⟩⟩]]⟩ =
        String.intercalate "\n"
          [mdRow [clean_cell_text s], mdRow ["---"], mdRow [clean_cell_text s]]) := by
  refine ⟨?_, ?_, ?_⟩
  · intro c hc
    unfold cell_text_with_merge_hint
    rw [hc]
    show pstrip c.text ++ " <" ++
        String.intercalate " " ["colspan=" ++ toString (2 : Int)] ++ ">" =
      pstrip c.text ++ " <colspan=2>"
    rw [String.append_assoc, String.append_assoc]
    refine congrArg _ ?_
    decide
  · intro s
    rfl
  · intro s t
    rfl

/-- Witness for C4's amended theorem at a concrete merged cell. -/
theorem merge_hint_amended_witness :
    cell_text_with_merge_hint ⟨"X", some ⟨some 2, none⟩⟩ =
      pstrip "X" ++ " <colspan=2>" :=
  merge_hint_amended.1 ⟨"X", some ⟨some 2, none⟩⟩ rfl

/-! ## C5: idempotence of remote asset resolution -/

theorem fsIsFile_write_self (fs : FS) (p : String) (b : List Nat) :
    fsIsFile (fsWrite fs p b) p = true := by
  unfold fsIsFile fsWrite
  simp [List.lookup]

theorem download_cached {outputDir : String} {hash : String → String}
    {net : String → Option (List Nat)} {url : String} {fs : FS}
    (h : fsIsFile fs (pjoin (pjoin outputDir "media") (hash url ++ urlExt url)) = true) :
    download_image_to_media outputDir hash net url fs =
      (fs, some (pjoin (pjoin outputDir "media") (hash url ++ urlExt url)), 0) := by
  unfold download_image_to_media
  simp [h]

theorem download_fetch {outputDir : String} {hash : String → String}
    {net : String → Option (List Nat)} {url : String} {fs : FS} {bytes : List Nat}
    (hf : fsIsFile fs (pjoin (pjoin outputDir "media") (hash url ++ urlExt url)) = false)
    (hn : net url = some bytes) :
    download_image_to_media outputDir hash net url fs =
      (fsWrite fs (pjoin (pjoin outputDir "media") (hash url ++ urlExt url)) bytes,
       some (pjoin (pjoin outputDir "media") (hash url ++ urlExt url)), 1) := by
  unfold download_image_to_media
  simp [hf, hn]

theorem download_fail {outputDir : String} {hash : String → String}
    {net : String → Option (List Nat)} {url : String} {fs : FS}
    (hf : fsIsFile fs (pjoin (pjoin outputDir "media") (hash url ++ urlExt url)) = false)
    (hn : net url = none) :
    download_image_to_media outputDir hash net url fs = (fs, none, 1) := by
  unfold download_image_to_media
  simp [hf, hn]

/-- C5.  If a call to `_download_image_to_media` resolves a URL to a local
path `p`, then `p` is `<outputDir>/media/<hash(url)><ext(url)>`, that call
fetched at most once, and a second call on the resulting filesystem returns
the same path with no network fetch. -/
theorem download_image_idempotent (outputDir : String) (hash : String → String)
    (net : String → Option (List Nat)) (url : String) (fs : FS) (p : String)
    (h : (download_image_to_media outputDir hash net url fs).2.1 = some p) :
    download_image_to_media outputDir hash net url
        (download_image_to_media outputDir hash net url fs).1 =
      ((download_image_to_media outputDir hash net url fs).1, some p, 0) ∧
    p = pjoin (pjoin outputDir "media") (hash url ++ urlExt url) ∧
    (download_image_to_media outputDir hash net url fs).2.2 ≤ 1 := by
  by_cases hf : fsIsFile fs (pjoin (pjoin outputDir "media") (hash url ++ urlExt url)) = true
  · rw [download_cached hf] at h ⊢
    obtain rfl : p = pjoin (pjoin outputDir "media") (hash url ++ urlExt url) := by
      simpa using h.symm
    rw [download_cached hf]
    exact ⟨rfl, rfl, by norm_num⟩
  · rw [Bool.not_eq_true] at hf
    cases hn : net url with
    | none => rw [download_fail hf hn] at h; simp at h
    | some bytes =>
      rw [download_fetch hf hn] at h ⊢
      obtain rfl : p = pjoin (pjoin outputDir "media") (hash url ++ urlExt url) := by
        simpa using h.symm
      rw [download_cached (fsIsFile_write_self fs _ bytes)]
      exact ⟨rfl, rfl, by norm_num⟩

/-- Witness for C5 at a concrete URL, an empty filesystem and a succeeding
network. -/
theorem download_image_idempotent_witness :
    (download_image_to_media "out" (fun _ => "aaaa") (fun _ => some [7])
        "http://x/a.png" []).2.1 = some "out/media/aaaa.png" ∧
    download_image_to_media "out" (fun _ => "aaaa") (fun _ => some [7]) "http://x/a.png"
        (download_image_to_media "out" (fun _ => "aaaa") (fun _ => some [7])
          "http://x/a.png" []).1 =
      ((download_image_to_media "out" (fun _ => "aaaa") (fun _ => some [7])
          "http://x/a.png" []).1, some "out/media/aaaa.png", 0) :=
  ⟨by decide,
   (download_image_idempotent "out" (fun _ => "aaaa") (fun _ => some [7])
     "http://x/a.png" [] "out/media/aaaa.png" (by decide)).1⟩

/-! ## C7: placeholder on unresolvable image -/

/-- C7.  Whenever an `Image` block's reference cannot be resolved to an
existing local file — a remote URL whose download fails, or a local reference
that none of `_add_image`'s candidate locations contains — `_add_image`
appends exactly one paragraph: the gray (RGB 128,128,128) placeholder
`[图片: <alt or 未命名图片>]`.  The block is never dropped and, being a total
function of the modelled state, the builder never raises past `_add_image`. -/
theorem add_image_placeholder (outputDir : String) (hash : String → String)
    (net : String → Option (List Nat)) (fs : FS) (ip altText : String)
    (hrem : (sstarts ip "http://" || sstarts ip "https://") = true →
      (download_image_to_media outputDir hash net ip fs).2.1 = none)
    (hloc : (sstarts ip "http://" || sstarts ip "https://") = false →
      (resolve_local_image outputDir fs ip).2 = none) :
    (add_image outputDir hash net fs ip altText).2 =
      [DocElem.placeholderPara 128 128 128
        ("[图片: " ++ (if altText = "" then "未命名图片" else altText) ++ "]")] := by
  unfold add_image
  by_cases hr : (sstarts ip "http://" || sstarts ip "https://") = true
  · rw [hr]
    simp only [if_true]
    rw [hrem hr]
    simp [grayPlaceholder]
  · rw [Bool.not_eq_true] at hr
    rw [hr]
    simp only [Bool.false_eq_true, if_false]
    unfold add_image_local
    simp [hloc hr, grayPlaceholder]

/-- Witness for C7: a nonexistent local reference on an empty filesystem. -/
theorem add_image_placeholder_witness :
    (sstarts "nope.png" "http://" || sstarts "nope.png" "https://") = false ∧
    (resolve_local_image "out" [] "nope.png").2 = none ∧
    (add_image "out" (fun _ => "aaaa") (fun _ => none) [] "nope.png" "alt").2 =
      [DocElem.placeholderPara 128 128 128
        ("[图片: " ++ (if "alt" = "" then "未命名图片" else "alt") ++ "]")] :=
  ⟨by decide, by decide,
   add_image_placeholder "out" (fun _ => "aaaa") (fun _ => none) [] "nope.png" "alt"
     (fun hc => absurd hc (by decide)) (fun _ => by decide)⟩

/-! ## C9: image-bearing paragraph extraction -/

/-- C9 counterexample.  A paragraph holding both text and an embedded image
(part basename `image1.png`, bytes `[1, 2]`): extraction writes the bytes to
`out/extracted_T1.png` — directly in the output directory, not under the
`out/media/` area — and emits only the image Markdown, not the text. -/
theorem image_paragraph_counterexample :
    paragraph_to_markdown_full "out"
        ⟨"Normal", "caption text", none, [⟨[some "rId1"]⟩],
          [("rId1", ⟨"image1.png", [1, 2]⟩)]⟩ [] ["T1"] =
      ([("out/extracted_T1.png", [1, 2])], [], "![image](extracted_T1.png)") ∧
    ([("out/extracted_T1.png", ([1, 2] : List Nat))].all
      (fun kv => !(sstarts kv.1 "out/media/"))) = true := by
  constructor <;> decide

/-- The image Markdown string is never empty. -/
theorem image_md_ne_empty (name : String) : ("![image](" ++ name ++ ")") ≠ "" := by
  intro h
  have := congrArg String.data h
  rw [String.data_append, String.data_append] at this
  simp at this

/-- C9 amended.  If a paragraph contains an embedded image run whose
relationship id resolves (`imgScan` hits a part), `_paragraph_to_markdown_full`
writes the image bytes to `<outputDir>/extracted_<timestamp><ext>` — the
output directory itself, not its `media/` subdirectory — consumes one clock
tick, and returns exactly the Markdown image reference, regardless of the
paragraph's text: no text Markdown is emitted. -/
theorem image_paragraph_priority (outputDir : String) (p : Par) (fs : FS)
    (clock : List String) (part : ImagePart)
    (h : imgScan p.relatedParts p.runs = some part) :
    paragraph_to_markdown_full outputDir p fs clock =
      (fsWrite fs
        (pjoin outputDir ("extracted_" ++ clock.headD "" ++
          (if splitextExt part.baseName = "" then ".png" else splitextExt part.baseName)))
        part.blob,
       clock.tail,
       "![image](" ++
         ("extracted_" ++ clock.headD "" ++
          (if splitextExt part.baseName = "" then ".png" else splitextExt part.baseName)) ++
         ")") := by
  unfold paragraph_to_markdown_full extract_images_from_paragraph
  rw [h]
  rw [if_pos (image_md_ne_empty _)]

/-- Witness for C9's amended theorem at the concrete paragraph of the
counterexample. -/
theorem image_paragraph_priority_witness :
    imgScan [("rId1", (⟨"image1.png", [1, 2]⟩ : ImagePart))] [⟨[some "rId1"]⟩] =
      some ⟨"image1.png", [1, 2]⟩ ∧
    paragraph_to_markdown_full "out"
        ⟨"Normal", "caption text", none, [⟨[some "rId1"]⟩],
          [("rId1", ⟨"image1.png", [1, 2]⟩)]⟩ [] ["T1"] =
      (fsWrite []
        (pjoin "out" ("extracted_" ++ (["T1"] : List String).headD "" ++
          (if splitextExt "image1.png" = "" then ".png" else splitextExt "image1.png")))
        [1, 2],
       (["T1"] : List String).tail,
       "![image](" ++
         ("extracted_" ++ (["T1"] : List String).headD "" ++
          (if splitextExt "image1.png" = "" then ".png" else splitextExt "image1.png")) ++
         ")") :=
  ⟨by decide,
   image_paragraph_priority "out"
     ⟨"Normal", "caption text", none, [⟨[some "rId1"]⟩],
       [("rId1", ⟨"image1.png", [1, 2]⟩)]⟩ [] ["T1"] ⟨"image1.png", [1, 2]⟩ (by decide)⟩

/-! ## C3: extraction order -/

/-- C3 counterexample.  For the document `[paragraph "A", 1×2 table,
paragraph "B"]`, `_extract_content_from_doc` yields `A`, `B`, then the table
— all paragraph fragments before all table fragments — while the spec's
document-order traversal (`spec_in_order_extract`) yields `A`, the table,
then `B`; the two disagree. -/
theorem extraction_order_counterexample :
    (extract_content_from_doc "out"
        [.par ⟨"Normal", "A", none, [], []⟩,
         .tbl ⟨2, [[⟨"X", none⟩, ⟨"Y", none⟩]]⟩,
         .par ⟨"Normal", "B", none, [], []⟩] [] []).2.2 =
      "A\n\nB\n\n| X | Y |\n| --- | --- |" ∧
    (spec_in_order_extract "out"
        [.par ⟨"Normal", "A", none, [], []⟩,
         .tbl ⟨2, [[⟨"X", none⟩, ⟨"Y", none⟩]]⟩,
         .par ⟨"Normal", "B", none, [], []⟩] [] []).2.2 =
      "A\n\n| X | Y |\n| --- | --- |\n\nB" ∧
    (extract_content_from_doc "out"
        [.par ⟨"Normal", "A", none, [], []⟩,
         .tbl ⟨2, [[⟨"X", none⟩, ⟨"Y", none⟩]]⟩,
         .par ⟨"Normal", "B", none, [], []⟩] [] []).2.2 ≠
      (spec_in_order_extract "out"
        [.par ⟨"Normal", "A", none, [], []⟩,
         .tbl ⟨2, [[⟨"X", none⟩, ⟨"Y", none⟩]]⟩,
         .par ⟨"Normal", "B", none, [], []⟩] [] []).2.2 := by
  refine ⟨by decide, by decide, by decide⟩

theorem extract_pars_pass_no_image (outputDir : String) (ps : List Par) (fs : FS)
    (ck : List String) (h : ∀ p ∈ ps, imgScan p.relatedParts p.runs = none) :
    extract_pars_pass outputDir ps fs ck =
      (fs, ck, (ps.map par_text_markdown).filter
        (fun s => s != "" && pstrip s != "")) := by
  induction ps generalizing fs ck with
  | nil => rfl
  | cons p ps ih =>
    have hp := h p (by simp)
    have hr : paragraph_to_markdown_full outputDir p fs ck = (fs, ck, par_text_markdown p) := by
      unfold paragraph_to_markdown_full extract_images_from_paragraph
      rw [hp]
      simp
    unfold extract_pars_pass
    rw [hr]
    simp only [ih fs ck (fun q hq => h q (List.mem_cons_of_mem p hq)),
      List.map_cons, List.filter_cons]

theorem extract_images_from_xml_empty (p : Par) : extract_images_from_xml p = "" := by
  unfold extract_images_from_xml
  cases imgScanEmbed p.runs <;> rfl

/-- The second body walk never contributes a fragment: every
`_extract_images_from_xml` call returns `""`. -/
theorem extract_imgs_pass_empty (ps : List Par) : extract_imgs_pass ps = [] := by
  induction ps with
  | nil => rfl
  | cons p ps ih =>
    unfold extract_imgs_pass
    rw [extract_images_from_xml_empty p]
    simpa using ih

/-- C3 amended.  `_extract_content_from_doc` does not interleave: it emits
all non-blank paragraph fragments in paragraph order (an image-bearing
paragraph contributes its image reference in this first group), then all
non-blank table fragments in table order, joined by blank lines.  The third
body walk contributes nothing: `_extract_images_from_xml` works on parentless
`Paragraph(block, None)` proxies whose `part` access raises and is caught, so
it always returns the empty string. -/
theorem extraction_grouped_order (outputDir : String) (doc : List BodyElem)
    (fs : FS) (clock : List String) :
    extract_imgs_pass (docParagraphs doc) = [] ∧
    extract_content_from_doc outputDir doc fs clock =
      ((extract_pars_pass outputDir (docParagraphs doc) fs clock).1,
       (extract_pars_pass outputDir (docParagraphs doc) fs clock).2.1,
       String.intercalate "\n\n"
         ((extract_pars_pass outputDir (docParagraphs doc) fs clock).2.2 ++
          ((docTables doc).map table_to_markdown_full).filter
            (fun s => s != "" && pstrip s != ""))) ∧
    ((∀ p ∈ docParagraphs doc, imgScan p.relatedParts p.runs = none) →
      extract_content_from_doc outputDir doc fs clock =
        (fs, clock, String.intercalate "\n\n"
          (((docParagraphs doc).map par_text_markdown).filter
              (fun s => s != "" && pstrip s != "") ++
           ((docTables doc).map table_to_markdown_full).filter
              (fun s => s != "" && pstrip s != "")))) := by
  refine ⟨extract_imgs_pass_empty _, ?_, ?_⟩
  · unfold extract_content_from_doc
    simp only [extract_imgs_pass_empty, List.append_nil]
  · intro h
    unfold extract_content_from_doc
    simp only [extract_imgs_pass_empty, List.append_nil,
      extract_pars_pass_no_image outputDir _ fs clock h]

/-- Witness for C3's amended theorem at the counterexample document. -/
theorem extraction_grouped_order_witness :
    (∀ p ∈ docParagraphs
        [.par ⟨"Normal", "A", none, [], []⟩,
         .tbl ⟨2, [[⟨"X", none⟩, ⟨"Y", none⟩]]⟩,
         .par ⟨"Normal", "B", none, [], []⟩],
      imgScan p.relatedParts p.runs = none) ∧
    extract_content_from_doc "out"
        [.par ⟨"Normal", "A", none, [], []⟩,
         .tbl ⟨2, [[⟨"X", none⟩, ⟨"Y", none⟩]]⟩,
         .par ⟨"Normal", "B", none, [], []⟩] [] [] =
      ([], [], String.intercalate "\n\n"
        (((docParagraphs
            [.par ⟨"Normal", "A", none, [], []⟩,
             .tbl ⟨2, [[⟨"X", none⟩, ⟨"Y", none⟩]]⟩,
             .par ⟨"Normal", "B", none, [], []⟩]).map par_text_markdown).filter
            (fun s => s != "" && pstrip s != "") ++
         ((docTables
            [.par ⟨"Normal", "A", none, [], []⟩,
             .tbl ⟨2, [[⟨"X", none⟩, ⟨"Y", none⟩]]⟩,
             .par ⟨"Normal", "B", none, [], []⟩]).map table_to_markdown_full).filter
            (fun s => s != "" && pstrip s != ""))) :=
  ⟨by decide,
   (extraction_grouped_order "out"
     [.par ⟨"Normal", "A", none, [], []⟩,
      .tbl ⟨2, [[⟨"X", none⟩, ⟨"Y", none⟩]]⟩,
      .par ⟨"Normal", "B", none, [], []⟩] [] []).2.2 (by decide)⟩

/-! ## Helper lemmas for the line parser -/

theorem isPrefixOf_append_false {p k : List Char} (l : List Char)
    (h : List.isPrefixOf (p.take k.length) k = false) :
    List.isPrefixOf p (k ++ l) = false := by
  by_contra hc
  rw [Bool.not_eq_false, List.isPrefixOf_iff_prefix] at hc
  rw [← Bool.not_eq_true, List.isPrefixOf_iff_prefix] at h
  apply h
  obtain ⟨s, hsx⟩ := hc
  refine ⟨s.take (k.length - p.length), ?_⟩
  have := congrArg (List.take k.length) hsx
  rw [List.take_append_eq_append_take] at this
  rw [this]
  simp

theorem sstarts_of_data_append {s p : String} {t : List Char}
    (h : s.data = p.data ++ t) : sstarts s p = true := by
  unfold sstarts
  rw [h, List.isPrefixOf_iff_prefix]
  exact ⟨t, rfl⟩

theorem sstarts_false_of_data {s p : String} {k t : List Char}
    (hs : s.data = k ++ t)
    (h : List.isPrefixOf (p.data.take k.length) k = false) :
    sstarts s p = false := by
  unfold sstarts
  rw [hs]
  exact isPrefixOf_append_false t h

theorem imageLineMatch_none_of_head {s : String} {c : Char} {t : List Char}
    (hd : s.data = c :: t) (hc : c ≠ '!') : imageLineMatch s = none := by
  unfold imageLineMatch
  rw [hd]
  split
  · rename_i rest heq
    injection heq with h1 _
    exact absurd h1 hc
  · rfl

theorem ordPrefixLen_none_of_head {s : String} {c : Char} {t : List Char}
    (hd : s.data = c :: t) (hc : c.isDigit = false) : ordPrefixLen s = none := by
  unfold ordPrefixLen
  rw [hd, List.takeWhile_cons, hc]
  simp

/-- One unfold of the line loop for a stripped, non-blank line that is
neither an image line nor a table header: the dispatch reduces to the
heading/list/quote/fence/paragraph `elif` chain. -/
theorem parse_cons_eq (l : String) (rest : List String)
    (hne : pstrip l ≠ "")
    (himg : imageLineMatch (pstrip l) = none)
    (htbl : is_table_header (pstrip l) = false) :
    markdown_to_word_blocks (l :: rest) =
      (if sstarts (pstrip l) "# " then
         Block.heading 1 (sdrop (pstrip l) 2) :: markdown_to_word_blocks rest
       else if sstarts (pstrip l) "## " then
         Block.heading 2 (sdrop (pstrip l) 3) :: markdown_to_word_blocks rest
       else if sstarts (pstrip l) "### " then
         Block.heading 3 (sdrop (pstrip l) 4) :: markdown_to_word_blocks rest
       else if sstarts (pstrip l) "#### " then
         Block.heading 4 (sdrop (pstrip l) 5) :: markdown_to_word_blocks rest
       else if sstarts (pstrip l) "- " || sstarts (pstrip l) "* " then
         Block.listItem false (sdrop (pstrip l) 2) :: markdown_to_word_blocks rest
       else if (ordPrefixLen (pstrip l)).isSome then
         Block.listItem true (sdrop (pstrip l) ((ordPrefixLen (pstrip l)).getD 0)) ::
           markdown_to_word_blocks rest
       else if sstarts (pstrip l) "> " then
         Block.quote (sdrop (pstrip l) 2) :: markdown_to_word_blocks rest
       else if sstarts (pstrip l) "```" then
         (fence_lines rest).1.map Block.para ++
           markdown_to_word_blocks (fence_lines rest).2.tail
       else Block.para (pstrip l) :: markdown_to_word_blocks rest) := by
  conv_lhs => rw [markdown_to_word_blocks.eq_def]
  simp only [hne, himg, htbl, if_false, Bool.false_and, Bool.false_eq_true]

/-- One unfold of the line loop at a table header followed by a separator
line: the `_add_table_block` branch fires. -/
theorem parse_cons_table (hdr r1 : String) (rest2 : List String)
    (hhdr : is_table_header (pstrip hdr) = true)
    (hsep : is_table_separator (pstrip r1) = true) :
    markdown_to_word_blocks (hdr :: r1 :: rest2) =
      Block.table (rowCells (pstrip hdr))
          (collect_table_rows (rowCells (pstrip hdr)).length rest2).1 ::
        markdown_to_word_blocks
          (collect_table_rows (rowCells (pstrip hdr)).length rest2).2 := by
  have hpipe : sstarts (pstrip hdr) "|" = true := by
    have h2 := hhdr
    simp only [is_table_header, Bool.and_eq_true] at h2
    exact h2.1
  obtain ⟨t, ht⟩ := sstarts_data hpipe
  have hne : pstrip hdr ≠ "" := str_ne_empty_of_data ht
  have himg : imageLineMatch (pstrip hdr) = none :=
    imageLineMatch_none_of_head ht (by decide)
  conv_lhs => rw [markdown_to_word_blocks.eq_def]
  simp only [hne, himg, hhdr, List.head?_cons, List.tail_cons, hsep, Bool.and_self,
    if_true, if_false]

/-! ## C2: table column-count guard -/

theorem collect_rows_all (ncols : Nat) (rows : List String) (bad : String)
    (post : List String)
    (hrows : ∀ r ∈ rows, is_table_header (pstrip r) = true ∧
      (rowCells (pstrip r)).length = ncols)
    (hbad1 : is_table_header (pstrip bad) = true)
    (hbad2 : (rowCells (pstrip bad)).length ≠ ncols) :
    collect_table_rows ncols (rows ++ bad :: post) =
      (rows.map (fun r => rowCells (pstrip r)), bad :: post) := by
  induction rows with
  | nil =>
    have hb : sstarts (pstrip bad) "|" = true ∧ hasPipeTail (pstrip bad) = true := by
      simpa [is_table_header, Bool.and_eq_true] using hbad1
    simp only [List.nil_append, collect_table_rows, hb.1, hb.2]
    simp [hbad2]
  | cons r rs ih =>
    have hr := hrows r (by simp)
    have hb : sstarts (pstrip r) "|" = true ∧ hasPipeTail (pstrip r) = true := by
      simpa [is_table_header, Bool.and_eq_true] using hr.1
    simp only [List.cons_append, collect_table_rows, hb.1, hb.2, hr.2, List.append_eq,
      Bool.not_true, Bool.or_self, Bool.false_eq_true, if_false, if_true,
      eq_self_iff_true, ite_true]
    rw [ih (fun q hq => hrows q (List.mem_cons_of_mem r hq))]
    simp

/-- C2.  A table header with M cells and a valid separator, followed by some
all-matching data rows and then a `|`-row whose cell count differs from M:
the parser emits a `Table` block holding exactly the matching rows, and the
mismatching row is re-processed from the top of the line loop as the start of
the remaining input — it is never skipped. -/
theorem table_column_count_guard (hdr sep : String) (rows : List String)
    (bad : String) (post : List String)
    (hhdr : is_table_header (pstrip hdr) = true)
    (hsep : is_table_separator (pstrip sep) = true)
    (hrows : ∀ r ∈ rows, is_table_header (pstrip r) = true ∧
      (rowCells (pstrip r)).length = (rowCells (pstrip hdr)).length)
    (hbad1 : is_table_header (pstrip bad) = true)
    (hbad2 : (rowCells (pstrip bad)).length ≠ (rowCells (pstrip hdr)).length) :
    markdown_to_word_blocks (hdr :: sep :: (rows ++ bad :: post)) =
      Block.table (rowCells (pstrip hdr)) (rows.map (fun r => rowCells (pstrip r))) ::
        markdown_to_word_blocks (bad :: post) := by
  rw [parse_cons_table hdr sep (rows ++ bad :: post) hhdr hsep,
    collect_rows_all (rowCells (pstrip hdr)).length rows bad post hrows hbad1 hbad2]

/-- Witness for C2 at the spec's example: header `| A | B |`, separator, then
a 3-cell row; the table is terminated immediately and the 3-cell row is
re-processed. -/
theorem table_column_count_guard_witness :
    is_table_header (pstrip "| A | B |") = true ∧
    is_table_separator (pstrip "|---|---|") = true ∧
    is_table_header (pstrip "| 1 | 2 | 3 |") = true ∧
    (rowCells (pstrip "| 1 | 2 | 3 |")).length ≠ (rowCells (pstrip "| A | B |")).length ∧
    markdown_to_word_blocks ["| A | B |", "|---|---|", "| 1 | 2 | 3 |"] =
      Block.table (rowCells (pstrip "| A | B |")) [] ::
        markdown_to_word_blocks ["| 1 | 2 | 3 |"] :=
  ⟨by decide, by decide, by decide, by decide, by
    have := table_column_count_guard "| A | B |" "|---|---|" [] "| 1 | 2 | 3 |" []
      (by decide) (by decide) (by intro r hr; simp at hr) (by decide) (by decide)
    simpa using this⟩

/-! ## C6: heading parsing -/

/-- The `#`-marker of a heading line. -/
def hashMarker (lvl : Nat) : String := ⟨List.replicate lvl '#'⟩

theorem parse_heading_at (l t : String) (rest : List String) (lvl : Nat)
    (h1 : 1 ≤ lvl) (h4 : lvl ≤ 4)
    (hd : l.data = List.replicate lvl '#' ++ ' ' :: t.data)
    (hs : pstrip l = l) :
    markdown_to_word_blocks (l :: rest) =
      Block.heading lvl t :: markdown_to_word_blocks rest := by
  interval_cases lvl
  · simp only [List.replicate_succ, List.replicate_zero, List.cons_append,
      List.nil_append] at hd
    have hne : l ≠ "" := str_ne_empty_of_data hd
    have himg : imageLineMatch l = none := imageLineMatch_none_of_head hd (by decide)
    have htbl : is_table_header l = false := by
      unfold is_table_header
      rw [@sstarts_false_of_data l "|" ['#', ' '] t.data hd (by decide)]
      rfl
    rw [parse_cons_eq l rest (by rw [hs]; exact hne) (by rw [hs]; exact himg)
      (by rw [hs]; exact htbl), hs]
    have hh : sstarts l "# " = true := @sstarts_of_data_append l "# " t.data hd
    have hdrop : sdrop l 2 = t := by
      unfold sdrop
      rw [hd]
      simp [strEta]
    simp only [hh, if_true, hdrop]
  · simp only [List.replicate_succ, List.replicate_zero, List.cons_append,
      List.nil_append] at hd
    have hne : l ≠ "" := str_ne_empty_of_data hd
    have himg : imageLineMatch l = none := imageLineMatch_none_of_head hd (by decide)
    have htbl : is_table_header l = false := by
      unfold is_table_header
      rw [@sstarts_false_of_data l "|" ['#', '#', ' '] t.data hd (by decide)]
      rfl
    rw [parse_cons_eq l rest (by rw [hs]; exact hne) (by rw [hs]; exact himg)
      (by rw [hs]; exact htbl), hs]
    have hf1 : sstarts l "# " = false :=
      @sstarts_false_of_data l "# " ['#', '#', ' '] t.data hd (by decide)
    have hh : sstarts l "## " = true := @sstarts_of_data_append l "## " t.data hd
    have hdrop : sdrop l 3 = t := by
      unfold sdrop
      rw [hd]
      simp [strEta]
    simp only [hf1, Bool.false_eq_true, if_false, hh, if_true, hdrop]
  · simp only [List.replicate_succ, List.replicate_zero, List.cons_append,
      List.nil_append] at hd
    have hne : l ≠ "" := str_ne_empty_of_data hd
    have himg : imageLineMatch l = none := imageLineMatch_none_of_head hd (by decide)
    have htbl : is_table_header l = false := by
      unfold is_table_header
      rw [@sstarts_false_of_data l "|" ['#', '#', '#', ' '] t.data hd (by decide)]
      rfl
    rw [parse_cons_eq l rest (by rw [hs]; exact hne) (by rw [hs]; exact himg)
      (by rw [hs]; exact htbl), hs]
    have hf1 : sstarts l "# " = false :=
      @sstarts_false_of_data l "# " ['#', '#', '#', ' '] t.data hd (by decide)
    have hf2 : sstarts l "## " = false :=
      @sstarts_false_of_data l "## " ['#', '#', '#', ' '] t.data hd (by decide)
    have hh : sstarts l "### " = true := @sstarts_of_data_append l "### " t.data hd
    have hdrop : sdrop l 4 = t := by
      unfold sdrop
      rw [hd]
      simp [strEta]
    simp only [hf1, hf2, Bool.false_eq_true, if_false, hh, if_true, hdrop]
  · simp only [List.replicate_succ, List.replicate_zero, List.cons_append,
      List.nil_append] at hd
    have hne : l ≠ "" := str_ne_empty_of_data hd
    have himg : imageLineMatch l = none := imageLineMatch_none_of_head hd (by decide)
    have htbl : is_table_header l = false := by
      unfold is_table_header
      rw [@sstarts_false_of_data l "|" ['#', '#', '#', '#', ' '] t.data hd (by decide)]
      rfl
    rw [parse_cons_eq l rest (by rw [hs]; exact hne) (by rw [hs]; exact himg)
      (by rw [hs]; exact htbl), hs]
    have hf1 : sstarts l "# " = false :=
      @sstarts_false_of_data l "# " ['#', '#', '#', '#', ' '] t.data hd (by decide)
    have hf2 : sstarts l "## " = false :=
      @sstarts_false_of_data l "## " ['#', '#', '#', '#', ' '] t.data hd (by decide)
    have hf3 : sstarts l "### " = false :=
      @sstarts_false_of_data l "### " ['#', '#', '#', '#', ' '] t.data hd (by decide)
    have hh : sstarts l "#### " = true := @sstarts_of_data_append l "#### " t.data hd
    have hdrop : sdrop l 5 = t := by
      unfold sdrop
      rw [hd]
      simp [strEta]
    simp only [hf1, hf2, hf3, Bool.false_eq_true, if_false, hh, if_true, hdrop]

/-- C6.  A line `"#"*lvl ++ " " ++ text` (1 ≤ lvl ≤ 4, already stripped)
parses to `Heading lvl text`, the text being everything after the marker and
space; a stripped line starting with `#` that matches none of the four
marker-plus-space shapes (such as `##Title`) falls through every branch to a
plain Paragraph. -/
theorem heading_parsing :
    (∀ (lvl : Nat) (t : String) (rest : List String),
      1 ≤ lvl → lvl ≤ 4 →
      pstrip (hashMarker lvl ++ " " ++ t) = hashMarker lvl ++ " " ++ t →
      markdown_to_word_blocks ((hashMarker lvl ++ " " ++ t) :: rest) =
        Block.heading lvl t :: markdown_to_word_blocks rest) ∧
    (∀ (l : String) (rest : List String),
      l.data.head? = some '#' →
      sstarts l "# " = false → sstarts l "## " = false →
      sstarts l "### " = false → sstarts l "#### " = false →
      pstrip l = l →
      markdown_to_word_blocks (l :: rest) =
        Block.para l :: markdown_to_word_blocks rest) := by
  constructor
  · intro lvl t rest h1 h4 hs
    refine parse_heading_at _ t rest lvl h1 h4 ?_ hs
    rw [String.data_append, String.data_append]
    show (List.replicate lvl '#' ++ [' ']) ++ t.data = _
    rw [List.append_assoc]
    rfl
  · intro l rest hhead hf1 hf2 hf3 hf4 hs
    cases hdc : l.data with
    | nil => rw [hdc] at hhead; simp at hhead
    | cons c tl =>
      rw [hdc] at hhead
      simp only [List.head?_cons, Option.some_inj] at hhead
      subst hhead
      have hd : l.data = ['#'] ++ tl := hdc
      have hne : l ≠ "" := str_ne_empty_of_data hdc
      have himg : imageLineMatch l = none := imageLineMatch_none_of_head hdc (by decide)
      have htbl : is_table_header l = false := by
        unfold is_table_header
        rw [@sstarts_false_of_data l "|" ['#'] tl hd (by decide)]
        rfl
      rw [parse_cons_eq l rest (by rw [hs]; exact hne) (by rw [hs]; exact himg)
        (by rw [hs]; exact htbl), hs]
      have hl1 : sstarts l "- " = false :=
        @sstarts_false_of_data l "- " ['#'] tl hd (by decide)
      have hl2 : sstarts l "* " = false :=
        @sstarts_false_of_data l "* " ['#'] tl hd (by decide)
      have hord : ordPrefixLen l = none := ordPrefixLen_none_of_head hdc (by decide)
      have hq : sstarts l "> " = false :=
        @sstarts_false_of_data l "> " ['#'] tl hd (by decide)
      have hfe : sstarts l "```" = false :=
        @sstarts_false_of_data l "```" ['#'] tl hd (by decide)
      simp only [hf1, hf2, hf3, hf4, hl1, hl2, hord, hq, hfe, Bool.false_eq_true,
        Bool.or_self, if_false, Option.isSome_none]

/-- Witness for C6: `#### Title` parses to a level-4 heading, and `##Title`
(no space after the marker) parses to a plain paragraph. -/
theorem heading_parsing_witness :
    pstrip (hashMarker 4 ++ " " ++ "Title") = hashMarker 4 ++ " " ++ "Title" ∧
    markdown_to_word_blocks [hashMarker 4 ++ " " ++ "Title"] =
      Block.heading 4 "Title" :: markdown_to_word_blocks [] ∧
    ("##Title" : String).data.head? = some '#' ∧
    markdown_to_word_blocks ["##Title"] =
      Block.para "##Title" :: markdown_to_word_blocks [] :=
  ⟨by decide,
   heading_parsing.1 4 "Title" [] (by decide) (by decide) (by decide),
   by decide,
   heading_parsing.2 "##Title" [] (by decide) (by decide) (by decide) (by decide)
     (by decide) (by decide)⟩

/-! ## C8: fenced code flattening -/

theorem fence_lines_all (body : List String) (cls : String) (rest : List String)
    (hbody : ∀ b ∈ body, sstarts (pstrip b) "```" = false)
    (hcls : sstarts (pstrip cls) "```" = true) :
    fence_lines (body ++ cls :: rest) = (body, cls :: rest) := by
  induction body with
  | nil => simp [fence_lines, hcls]
  | cons b bs ih =>
    simp only [List.cons_append, fence_lines, hbody b (by simp), Bool.false_eq_true,
      if_false, List.append_eq]
    rw [ih (fun q hq => hbody q (List.mem_cons_of_mem b hq))]

/-- C8.  A line starting with ```` ``` ```` opens a fence: every following
line up to (but excluding) the next line whose strip starts with ```` ``` ````
is emitted as a plain `Paragraph` carrying the raw line, and neither fence
line produces any block. -/
theorem fenced_code_flattening (opn : String) (body : List String) (cls : String)
    (rest : List String)
    (hopn : sstarts (pstrip opn) "```" = true)
    (hbody : ∀ b ∈ body, sstarts (pstrip b) "```" = false)
    (hcls : sstarts (pstrip cls) "```" = true) :
    markdown_to_word_blocks (opn :: (body ++ cls :: rest)) =
      body.map Block.para ++ markdown_to_word_blocks rest := by
  obtain ⟨tl, htl⟩ := sstarts_data hopn
  have hd : (pstrip opn).data = ['`', '`', '`'] ++ tl := htl
  have hne : pstrip opn ≠ "" := str_ne_empty_of_data hd
  have himg : imageLineMatch (pstrip opn) = none :=
    imageLineMatch_none_of_head hd (by decide)
  have htbl : is_table_header (pstrip opn) = false := by
    unfold is_table_header
    rw [@sstarts_false_of_data (pstrip opn) "|" ['`', '`', '`'] tl hd (by decide)]
    rfl
  rw [parse_cons_eq opn (body ++ cls :: rest) hne himg htbl]
  have hf1 : sstarts (pstrip opn) "# " = false :=
    @sstarts_false_of_data (pstrip opn) "# " ['`', '`', '`'] tl hd (by decide)
  have hf2 : sstarts (pstrip opn) "## " = false :=
    @sstarts_false_of_data (pstrip opn) "## " ['`', '`', '`'] tl hd (by decide)
  have hf3 : sstarts (pstrip opn) "### " = false :=
    @sstarts_false_of_data (pstrip opn) "### " ['`', '`', '`'] tl hd (by decide)
  have hf4 : sstarts (pstrip opn) "#### " = false :=
    @sstarts_false_of_data (pstrip opn) "#### " ['`', '`', '`'] tl hd (by decide)
  have hl1 : sstarts (pstrip opn) "- " = false :=
    @sstarts_false_of_data (pstrip opn) "- " ['`', '`', '`'] tl hd (by decide)
  have hl2 : sstarts (pstrip opn) "* " = false :=
    @sstarts_false_of_data (pstrip opn) "* " ['`', '`', '`'] tl hd (by decide)
  have hord : ordPrefixLen (pstrip opn) = none := ordPrefixLen_none_of_head hd (by decide)
  have hq : sstarts (pstrip opn) "> " = false :=
    @sstarts_false_of_data (pstrip opn) "> " ['`', '`', '`'] tl hd (by decide)
  rw [fence_lines_all body cls rest hbody hcls]
  simp only [hf1, hf2, hf3, hf4, hl1, hl2, hord, hq, hopn, Bool.false_eq_true,
    Bool.or_self, if_false, if_true, Option.isSome_none, List.tail_cons]

/-- Witness for C8: a fence around two lines yields exactly the two plain
paragraphs. -/
theorem fenced_code_flattening_witness :
    sstarts (pstrip "```python") "```" = true ∧
    markdown_to_word_blocks ["```python", "x = 1", "y = 2", "```"] =
      (["x = 1", "y = 2"] : List String).map Block.para ++ markdown_to_word_blocks [] :=
  ⟨by decide,
   fenced_code_flattening "```python" ["x = 1", "y = 2"] "```" [] (by decide)
     (by decide) (by decide)⟩

/-! ## C10: failed downloads leave the source text unchanged -/

theorem download_none_fs {outputDir : String} {hash : String → String}
    {net : String → Option (List Nat)} {url : String} {fs : FS}
    (h : (download_image_to_media outputDir hash net url fs).2.1 = none) :
    (download_image_to_media outputDir hash net url fs).1 = fs := by
  by_cases hf : fsIsFile fs (pjoin (pjoin outputDir "media") (hash url ++ urlExt url)) = true
  · rw [download_cached hf] at h; simp at h
  · rw [Bool.not_eq_true] at hf
    cases hn : net url with
    | none => rw [download_fail hf hn]
    | some bytes => rw [download_fetch hf hn] at h; simp at h

theorem urlSchemeSplit_decomp {u : List Char} {su : List Char × List Char}
    (h : urlSchemeSplit u = some su) : su.1 ++ su.2 = u := by
  unfold urlSchemeSplit at h
  by_cases h8 : List.isPrefixOf "https://".data u = true
  · rw [if_pos h8] at h
    obtain rfl : ("https://".data, u.drop 8) = su := by simpa using h
    exact List.prefix_iff_eq_append.mp (List.isPrefixOf_iff_prefix.mp h8)
  · rw [if_neg h8] at h
    by_cases h7 : List.isPrefixOf "http://".data u = true
    · rw [if_pos h7] at h
      obtain rfl : ("http://".data, u.drop 7) = su := by simpa using h
      exact List.prefix_iff_eq_append.mp (List.isPrefixOf_iff_prefix.mp h7)
    · rw [if_neg h7] at h
      simp at h

theorem findTitleEnd_decomp :
    ∀ {l : List Char} {tr : List Char × List Char}, findTitleEnd l = some tr →
      l = tr.1 ++ '"' :: ')' :: tr.2 := by
  intro l
  induction l with
  | nil => intro tr h; simp [findTitleEnd] at h
  | cons c r ih =>
    intro tr h
    unfold findTitleEnd at h
    by_cases hq : (c = '"' && r.head? == some ')') = true
    · rw [if_pos hq] at h
      rw [Bool.and_eq_true, decide_eq_true_eq, beq_iff_eq] at hq
      obtain rfl : ([], r.tail) = tr := by simpa using h
      cases r with
      | nil => simp at hq
      | cons d rr =>
        simp only [List.head?_cons, Option.some_inj] at hq
        rw [hq.1, hq.2]
        rfl
    · rw [if_neg hq] at h
      by_cases hn : c = '\n'
      · rw [if_pos hn] at h; simp at h
      · rw [if_neg hn] at h
        cases hrec : findTitleEnd r with
        | none => rw [hrec] at h; simp at h
        | some tr2 =>
          rw [hrec] at h
          obtain rfl : (c :: tr2.1, tr2.2) = tr := by simpa using h
          rw [ih hrec]
          rfl

theorem matchImageLink_decomp {l : List Char} {m : LinkMatch}
    (h : matchImageLink l = some m) :
    m.matched ++ m.remaining = l ∧ m.matched ≠ [] := by
  unfold matchImageLink at h
  split at h
  rotate_left
  · exact absurd h (by simp)
  rename_i t
  simp only at h
  split at h
  rotate_left
  · exact absurd h (by simp)
  rename_i u heqd
  cases hsch : urlSchemeSplit u with
  | none => rw [hsch] at h; exact absurd h (by simp)
  | some su =>
    rw [hsch] at h
    simp only at h
    by_cases hrun : (su.2.takeWhile (fun c => c != ')' && !c.isWhitespace)).isEmpty = true
    · rw [if_pos hrun] at h
      exact absurd h (by simp)
    · rw [if_neg hrun] at h
      have h1 : t.takeWhile (fun c => c != ']') ++
          t.dropWhile (fun c => c != ']') = t :=
        List.takeWhile_append_dropWhile _ _
      have h2 := urlSchemeSplit_decomp hsch
      have h3 : su.2.takeWhile (fun c => c != ')' && !c.isWhitespace) ++
          su.2.dropWhile (fun c => c != ')' && !c.isWhitespace) = su.2 :=
        List.takeWhile_append_dropWhile _ _
      split at h
      · rename_i rest heqr
        obtain rfl : _ = m := Option.some_inj.mp h
        refine ⟨?_, by simp⟩
        simp only []
        conv_rhs => rw [← h1, heqd, ← h2, ← h3, heqr]
        simp [List.append_assoc]
      · rename_i r hner
        by_cases hws : (((su.2.dropWhile (fun c => c != ')' && !c.isWhitespace))).takeWhile
            Char.isWhitespace).isEmpty = true
        · rw [if_pos hws] at h; exact absurd h (by simp)
        · rw [if_neg hws] at h
          split at h
          rotate_left
          · exact absurd h (by simp)
          rename_i r2 heqw
          cases hft : findTitleEnd r2 with
          | none => rw [hft] at h; exact absurd h (by simp)
          | some tr =>
            rw [hft] at h
            obtain rfl : _ = m := Option.some_inj.mp h
            have h4 : (su.2.dropWhile (fun c => c != ')' && !c.isWhitespace)).takeWhile
                  Char.isWhitespace ++
                (su.2.dropWhile (fun c => c != ')' && !c.isWhitespace)).dropWhile
                  Char.isWhitespace =
                su.2.dropWhile (fun c => c != ')' && !c.isWhitespace) :=
              List.takeWhile_append_dropWhile _ _
            have h5 := findTitleEnd_decomp hft
            refine ⟨?_, by simp⟩
            simp only []
            conv_rhs => rw [← h1, heqd, ← h2, ← h3, ← h4, heqw, h5]
            simp [List.append_assoc]

theorem preprocess_go_all_fail (outputDir : String) (hash : String → String)
    (net : String → Option (List Nat)) (hnet : ∀ u, net u = none) :
    ∀ (fuel : Nat) (l : List Char) (fs : FS),
      (∀ u, fsIsFile fs (pjoin (pjoin outputDir "media") (hash u ++ urlExt u)) = false) →
      preprocess_go outputDir hash net fuel l fs = (fs, l) := by
  intro fuel
  induction fuel with
  | zero => intro l fs _; rfl
  | succ n ih =>
    intro l fs hfs
    cases l with
    | nil => rfl
    | cons c cs =>
      conv_lhs => rw [preprocess_go.eq_def]
      cases hm : matchImageLink (c :: cs) with
      | none =>
        simp only [hm, ih cs fs hfs]
      | some m =>
        have hd := download_fail (hfs m.url) (hnet m.url)
        simp only [hm, hd, ih m.remaining fs hfs]
        rw [(matchImageLink_decomp hm).1]

/-- The relative path of a freshly downloaded media file: when the output
directory is nonempty, has no trailing slash, and the hashed name is not
absolute, `os.path.relpath(<outputDir>/media/<name>, <outputDir>)` is
`media/<name>`. -/
theorem relpath_media (outputDir name : String)
    (h1 : outputDir ≠ "") (h2 : outputDir.data.getLast? ≠ some '/')
    (h3 : sstarts name "/" = false) :
    relpathFrom outputDir (pjoin (pjoin outputDir "media") name) = "media/" ++ name := by
  have hm : pjoin outputDir "media" = outputDir ++ "/" ++ "media" := by
    unfold pjoin
    rw [if_neg (by decide : ¬(sstarts "media" "/" = true)), if_neg h1, if_neg h2]
  have hne : (outputDir ++ "/" ++ "media") ≠ "" := by
    intro he
    have hc := congrArg String.data he
    rw [String.data_append, String.data_append] at hc
    simp at hc
  have hlast : (outputDir ++ "/" ++ "media").data.getLast? = some 'a' := by
    rw [String.data_append]
    rw [List.getLast?_append_of_ne_nil _ (by simp [show ("media" : String).data =
      ['m', 'e', 'd', 'i', 'a'] from rfl])]
    rfl
  have hj : pjoin (pjoin outputDir "media") name =
      outputDir ++ "/" ++ "media" ++ "/" ++ name := by
    rw [hm]
    unfold pjoin
    rw [h3]
    rw [if_neg (by simp), if_neg hne, if_neg (by simp [hlast])]
  rw [hj]
  unfold relpathFrom
  have hdata : (outputDir ++ "/" ++ "media" ++ "/" ++ name).data =
      (outputDir ++ "/").data ++ ("media".data ++ ['/'] ++ name.data) := by
    simp only [String.data_append, List.append_assoc]
  have hpre : (outputDir ++ "/").data.isPrefixOf
      (outputDir ++ "/" ++ "media" ++ "/" ++ name).data = true := by
    rw [List.isPrefixOf_iff_prefix, hdata]
    exact ⟨_, rfl⟩
  rw [if_pos hpre]
  refine String.ext ?_
  show (outputDir ++ "/" ++ "media" ++ "/" ++ name).data.drop (outputDir.length + 1) = _
  rw [hdata]
  have hlen : outputDir.length + 1 = (outputDir ++ "/").data.length := by
    rw [String.data_append, List.length_append]
    rfl
  rw [hlen, List.drop_left]
  rw [String.data_append]
  rfl

/-- The Markdown image link `_preprocess_markdown_assets` writes for a
successfully resolved URL: the alt text defaults to `image` when empty and
the title survives only when non-empty. -/
def rewrittenLink (m : LinkMatch) (rel : String) : String :=
  "![" ++ (if m.alt = "" then "image" else m.alt) ++ "](" ++ rel ++
    (match m.title with
     | some ti => if ti ≠ "" then " \"" ++ ti ++ "\"" else ""
     | none => "") ++ ")"

/-- C10 counterexample.  The remote link `![](http://x/a.png)` (empty alt)
with a succeeding download is rewritten to `![image](media/aaaa.png)`: the
alt text is replaced by `image`, not preserved as claimed. -/
theorem preprocess_alt_counterexample :
    (preprocess_markdown_assets "out" (fun _ => "aaaa") (fun _ => some [7])
        "![](http://x/a.png)" []).2 = "![image](media/aaaa.png)" ∧
    ("![image](media/aaaa.png)" : String) ≠ "![](media/aaaa.png)" := by
  constructor <;> decide

/-- C10 amended.  (a) When every download fails (failing network, no cached
media file), `_preprocess_markdown_assets` returns its input character for
character unchanged, with the filesystem untouched.  (b) When the link
matched at the head of the input resolves, it is rewritten to
`![alt](media/<hash><ext> ...)` — preserving a non-empty alt text and a
non-empty title, but replacing an empty alt by `image` and dropping an empty
title — and the scan continues after the match. -/
theorem preprocess_markdown_assets_behavior :
    (∀ (outputDir : String) (hash : String → String) (net : String → Option (List Nat))
       (content : String) (fs : FS),
      (∀ u, net u = none) →
      (∀ u, fsIsFile fs (pjoin (pjoin outputDir "media") (hash u ++ urlExt u)) = false) →
      preprocess_markdown_assets outputDir hash net content fs = (fs, content)) ∧
    (∀ (outputDir : String) (hash : String → String) (net : String → Option (List Nat))
       (fuel : Nat) (l : List Char) (fs : FS) (m : LinkMatch) (lp : String),
      matchImageLink l = some m →
      (download_image_to_media outputDir hash net m.url fs).2.1 = some lp →
      outputDir ≠ "" → outputDir.data.getLast? ≠ some '/' →
      sstarts (hash m.url ++ urlExt m.url) "/" = false →
      (preprocess_go outputDir hash net (fuel + 1) l fs).2 =
        (rewrittenLink m ("media/" ++ (hash m.url ++ urlExt m.url))).data ++
          (preprocess_go outputDir hash net fuel m.remaining
            (download_image_to_media outputDir hash net m.url fs).1).2) := by
  constructor
  · intro outputDir hash net content fs hnet hfs
    unfold preprocess_markdown_assets
    rw [preprocess_go_all_fail outputDir hash net hnet content.data.length
      content.data fs hfs]
  · intro outputDir hash net fuel l fs m lp hm hd hod1 hod2 hname
    have hlp : lp = pjoin (pjoin outputDir "media") (hash m.url ++ urlExt m.url) :=
      (download_image_idempotent outputDir hash net m.url fs lp hd).2.1
    cases l with
    | nil => rw [show matchImageLink [] = none from rfl] at hm; exact absurd hm (by simp)
    | cons c cs =>
      conv_lhs => rw [preprocess_go.eq_def]
      simp only [hm, hd]
      have hrel : relpathFrom outputDir lp = "media/" ++ (hash m.url ++ urlExt m.url) := by
        rw [hlp]
        exact relpath_media outputDir _ hod1 hod2 hname
      rw [hrel]
      cases ht : m.title with
      | none =>
        simp only [rewrittenLink, ht]
        congr 1
        simp [String.data_append, show ("" : String).data = [] from rfl]
      | some ti =>
        by_cases hti : ti ≠ ""
        · simp only [rewrittenLink, ht, if_pos hti]
          congr 1
          simp [String.data_append, List.append_assoc,
            show ("\")" : String).data = ['"', ')'] from rfl,
            show ("\"" : String).data = ['"'] from rfl,
            show (")" : String).data = [')'] from rfl]
        · simp only [rewrittenLink, ht, if_neg hti]
          congr 1
          simp [String.data_append, show ("" : String).data = [] from rfl]

/-- Witness for C10's amended theorem: part (a) at a failing network over an
empty filesystem, part (b) at a concrete resolving link. -/
theorem preprocess_markdown_assets_behavior_witness :
    preprocess_markdown_assets "out" (fun _ => "aaaa") (fun _ => none)
        "x ![a](http://u/p.png) y" [] = ([], "x ![a](http://u/p.png) y") ∧
    (preprocess_go "out" (fun _ => "aaaa") (fun _ => some [7]) 1
        ("![a](http://u/p.png)".data) []).2 =
      (rewrittenLink ⟨"a", "http://u/p.png", none, "![a](http://u/p.png)".data, []⟩
        ("media/" ++ ((fun (_ : String) => "aaaa") "http://u/p.png" ++
          urlExt "http://u/p.png"))).data ++
        (preprocess_go "out" (fun _ => "aaaa") (fun _ => some [7]) 0 []
          (download_image_to_media "out" (fun _ => "aaaa") (fun _ => some [7])
            "http://u/p.png" []).1).2 :=
  ⟨preprocess_markdown_assets_behavior.1 "out" (fun _ => "aaaa") (fun _ => none)
      "x ![a](http://u/p.png) y" [] (fun _ => rfl) (fun _ => rfl),
   preprocess_markdown_assets_behavior.2 "out" (fun _ => "aaaa") (fun _ => some [7]) 0
     ("![a](http://u/p.png)".data) []
     ⟨"a", "http://u/p.png", none, "![a](http://u/p.png)".data, []⟩
     "out/media/aaaa.png" (by decide) (by decide) (by decide) (by decide) (by decide)⟩

end WordFile
